import Mathlib

set_option maxRecDepth 8000

/-!
# Verification of the polymarket-signals core pipeline

A shallow embedding of the decision logic of `src/polymarket.py` and
`src/backtest.py`: keyword categorisation, volume filtering, tier
classification and ranking, snapshot persistence, and backtest scoring.

Python floats are modelled as exact rationals (`ℚ`); Python's `round(x, n)`
is modelled by rounding `x * 10^n` to the nearest integer (the two differ
only on exact half-way values, which this development avoids).  Python
dicts are modelled as ordered association lists (CPython dicts preserve
insertion order).  A JSON field that is absent and one whose stored value
is `null` are both modelled as `none` wherever every consumer in scope
treats the two identically (both are falsy and both default to the same
value in the code under study).
-/

namespace PolymarketSignals

/-- Severity tier of a one-day probability move (`calculate_signals`). -/
inductive Tier where
  | major
  | notable
  | stable
deriving DecidableEq, Repr

/-- One element of the JSON-decoded `outcomePrices` array: either a string
`float()` accepts (carrying its numeric value) or one it raises on. -/
inductive PriceEntry where
  | num (q : ℚ)
  | notNum
deriving DecidableEq, Repr

/-- The `outcomePrices` field after `json.loads`: either the parse raised
(malformed JSON, or a value that is not an array) or it produced an array
of entries. -/
inductive PricesField where
  | malformed
  | arr (prices : List PriceEntry)
deriving DecidableEq, Repr

/-- A raw market record as returned by the market-data API.  `none` models
an absent key (or a stored `null` where the code treats the two alike).
`categoryTag` and `affectedStocksTag` model the `_category` and
`_affected_stocks` keys that `filter_relevant_markets` adds. -/
structure Market where
  id : Option String
  question : Option String
  description : Option String
  outcomePrices : Option PricesField
  oneDayPriceChange : Option ℚ
  oneWeekPriceChange : Option ℚ
  volume24hr : Option ℚ
  volumeNum : Option ℚ
  slug : Option String
  categoryTag : Option String := none
  affectedStocksTag : Option (List String) := none
deriving DecidableEq, Repr

/-- A value of the `stock_impact` mapping: a list of tickers, or any other
JSON value (skipped by the `isinstance(value, list)` check). -/
inductive StockImpactVal where
  | list (tickers : List String)
  | other
deriving DecidableEq, Repr

/-- One category's configuration under `watchlist`. -/
structure CatConfig where
  keywords : Option (List String)
  stock_impact : Option (List (String × StockImpactVal))
deriving DecidableEq, Repr

/-- The configuration keys the core pipeline reads.  `watchlist` keeps the
declared (insertion) order of the JSON object. -/
structure Config where
  watchlist : List (String × CatConfig)
  min_volume_24h : ℚ
  major_change : ℚ
  notable_change : ℚ
deriving DecidableEq, Repr

/-- One signal dict built by `calculate_signals`. -/
structure Signal where
  id : Option String
  question : Option String
  category : Option String
  affected_stocks : List String
  current_prob : ℚ
  day_change : ℚ
  week_change : ℚ
  volume_24h : ℚ
  volume_total : ℚ
  slug : Option String
deriving DecidableEq, Repr

/-- The structured signal data returned by `calculate_signals`: three tier
lists plus a timestamp. -/
structure SignalSet where
  major : List Signal
  notable : List Signal
  stable : List Signal
  timestamp : String
deriving DecidableEq, Repr

/-- `round(x, n)` on exact rationals: round `x·10^n` to the nearest
integer and scale back. -/
def roundTo (n : ℕ) (x : ℚ) : ℚ := (round (x * (10 : ℚ) ^ n) : ℤ) / (10 : ℚ) ^ n

/-- Python's `str.lower()` restricted to ASCII case folding, returning the
character list of the result. -/
def lowerStr (s : String) : List Char := s.data.map Char.toLower

/-- Python's `needle in haystack` substring test on character lists. -/
def isSubstring (needle haystack : List Char) : Bool :=
  haystack.tails.any (fun t => needle.isPrefixOf t)

/-- Does any keyword of the list occur (case-insensitively) in `text`?
`text` is already lowercased.  This is the inner `for keyword in keywords`
loop of `categorize_market`; which keyword matches first does not affect
the function's result, only whether some keyword matches. -/
def keywordHit (text : List Char) (keywords : List String) : Bool :=
  keywords.any (fun kw => isSubstring (lowerStr kw) text)

/-- `stocks = []; for key, value in impact.items(): if isinstance(value, list):
stocks.extend(value)` — concatenate, in declared order, every value of the
`stock_impact` mapping that is a list. -/
def collectStocks (cc : CatConfig) : List String :=
  ((cc.stock_impact.getD []).filterMap (fun kv =>
    match kv.2 with
    | .list tickers => some tickers
    | .other => none)).flatten

/-- A valid model of CPython's `list(set(·))`: the result is duplicate-free
and has exactly the elements of the input.  The enumeration order of a
CPython set is a function of the process-wide string-hash seed, not of the
input alone, so it is kept as an explicit parameter `enum`. -/
def ValidSetEnum (enum : List String → List String) : Prop :=
  ∀ l : List String, (enum l).Nodup ∧ ∀ x, x ∈ enum l ↔ x ∈ l

/-- `categorize_market`, recursing over the `watchlist` items in declared
order: the first category one of whose keywords occurs in the lowercased
`f"{question} {description}"` wins and contributes `list(set(stocks))` of
its collected stock-impact tickers; no match yields `(None, [])`. -/
def categorizeAux (enum : List String → List String) (text : List Char) :
    List (String × CatConfig) → Option String × List String
  | [] => (none, [])
  | (category, cc) :: rest =>
    if keywordHit text (cc.keywords.getD []) then
      (some category, enum (collectStocks cc))
    else
      categorizeAux enum text rest

/-- `categorize_market(question, description, config)`. -/
def categorize_market (enum : List String → List String)
    (question description : String) (config : Config) :
    Option String × List String :=
  categorizeAux enum (lowerStr (question ++ " " ++ description)) config.watchlist

/-- Python truthiness of an optional string: `None` and `""` are falsy. -/
def truthyOptStr : Option String → Bool
  | none => false
  | some s => !s.isEmpty

/-- `filter_relevant_markets(markets, config)`: drop markets whose 24-hour
volume (`market.get("volume24hr", 0) or 0`) is below
`config["alert_thresholds"]["min_volume_24h"]`, categorise the rest, and
keep those with a truthy category, tagging them with `_category` and
`_affected_stocks`. -/
def filter_relevant_markets (enum : List String → List String)
    (markets : List Market) (config : Config) : List Market :=
  markets.filterMap (fun m =>
    let question := m.question.getD ""
    let description := m.description.getD ""
    let volume_24h := m.volume24hr.getD 0
    if volume_24h < config.min_volume_24h then
      none
    else
      let cs := categorize_market enum question description config
      if truthyOptStr cs.1 then
        some { m with categoryTag := cs.1, affectedStocksTag := some cs.2 }
      else
        none)

/-- The `yes_price` computed in `calculate_signals`:
`prices = json.loads(market.get("outcomePrices", "[]"))`,
`yes_price = float(prices[0]) if prices else 0`, any exception giving 0.
An absent key parses `"[]"` to the empty array. -/
def yesPrice (f : Option PricesField) : ℚ :=
  match f.getD (.arr []) with
  | .malformed => 0
  | .arr [] => 0
  | .arr (.num q :: _) => q
  | .arr (.notNum :: _) => 0

/-- `(market.get("oneDayPriceChange") or 0) * 100` — the raw (unrounded)
day change in percent. -/
def rawDayChange (m : Market) : ℚ := m.oneDayPriceChange.getD 0 * 100

/-- The signal dict `calculate_signals` builds for one market. -/
def mkSignal (m : Market) : Signal :=
  { id := m.id
    question := m.question
    category := m.categoryTag
    affected_stocks := m.affectedStocksTag.getD []
    current_prob := roundTo 1 (yesPrice m.outcomePrices * 100)
    day_change := roundTo 2 (rawDayChange m)
    week_change := roundTo 2 (m.oneWeekPriceChange.getD 0 * 100)
    volume_24h := m.volume24hr.getD 0
    volume_total := m.volumeNum.getD 0
    slug := m.slug }

/-- The tier classification of `calculate_signals`:
`abs(day_change) >= major_threshold` gives major, else
`>= notable_threshold` gives notable, else stable. -/
def classify_tier (day_change_pct major_threshold notable_threshold : ℚ) : Tier :=
  if |day_change_pct| ≥ major_threshold then .major
  else if |day_change_pct| ≥ notable_threshold then .notable
  else .stable

/-- The sort relation of `sorted(key=lambda x: abs(x["day_change"]),
reverse=True)`: descending by the absolute rounded day change.  Tied
elements relate both ways, so a stable sort keeps them in fetch order. -/
def signalDescRel (a b : Signal) : Prop := |b.day_change| ≤ |a.day_change|

instance : DecidableRel signalDescRel := fun a b =>
  inferInstanceAs (Decidable (|b.day_change| ≤ |a.day_change|))

instance : IsTotal Signal signalDescRel :=
  ⟨fun a b => le_total |b.day_change| |a.day_change|⟩

instance : IsTrans Signal signalDescRel :=
  ⟨fun _ _ _ hab hbc => le_trans hbc hab⟩

/-- CPython's `sorted` is a stable sort: its output is the unique
`le`-sorted permutation of the input keeping tied elements in their
original relative order.  `List.insertionSort` has exactly this contract,
so it models `sorted(signals[key], key=lambda x: abs(x["day_change"]),
reverse=True)`. -/
def pySorted (l : List Signal) : List Signal := l.insertionSort signalDescRel

/-- The markets of `markets` landing in tier `t`, in fetch order, mapped
to their signal dicts — the contents of `signals[t]` before the final
sort step of `calculate_signals`. -/
def tierList (markets : List Market) (config : Config) (t : Tier) : List Signal :=
  (markets.filter (fun m =>
    classify_tier (rawDayChange m) config.major_change config.notable_change = t)).map
    mkSignal

/-- `calculate_signals(markets, config)`: classify every market into
exactly one tier by its unrounded day change, then re-sort the major and
notable lists (only) descending by absolute rounded day change.  The code
stamps `datetime.utcnow().isoformat()`; the timestamp is the explicit
parameter `now`. -/
def calculate_signals (markets : List Market) (config : Config) (now : String) :
    SignalSet :=
  { major := pySorted (tierList markets config .major)
    notable := pySorted (tierList markets config .notable)
    stable := tierList markets config .stable
    timestamp := now }

/-- The signal-set build of one polling cycle (`generate_daily_report`):
`calculate_signals(filter_relevant_markets(raw_markets, config), config)`. -/
def build (enum : List String → List String) (raw_markets : List Market)
    (config : Config) (now : String) : SignalSet :=
  calculate_signals (filter_relevant_markets enum raw_markets config) config now

/-! ## Snapshot store (`init_db`, `save_snapshot`) -/

/-- One row of the `market_snapshots` table.  `market_id` and `question`
are NOT NULL; `timestamp` defaults to the insertion time. -/
structure SnapshotRow where
  market_id : String
  question : String
  category : Option String
  yes_price : ℚ
  no_price : ℚ
  volume_24h : ℚ
  volume_total : ℚ
  timestamp : String
deriving DecidableEq, Repr

/-- The `(yes_price, no_price)` pair computed in `save_snapshot`:
`yes_price = float(prices[0]) if prices else 0`,
`no_price = float(prices[1]) if len(prices) > 1 else 0`, with any
exception in the shared `try` block giving `(0, 0)`. -/
def yesNoPrice (f : Option PricesField) : ℚ × ℚ :=
  match f.getD (.arr []) with
  | .malformed => (0, 0)
  | .arr [] => (0, 0)
  | .arr [.num q] => (q, 0)
  | .arr [.notNum] => (0, 0)
  | .arr (.num q :: .num n :: _) => (q, n)
  | .arr (.num _ :: .notNum :: _) => (0, 0)
  | .arr (.notNum :: _ :: _) => (0, 0)

/-- Does row `r` hit the `UNIQUE(market_id, timestamp)` key `(mid, ts)`? -/
def rowKey (mid ts : String) (r : SnapshotRow) : Bool :=
  r.market_id = mid && r.timestamp = ts

/-- SQLite `INSERT OR IGNORE` into `market_snapshots`: a row violating the
NOT NULL constraints on `market_id`/`question`, or the
`UNIQUE(market_id, timestamp)` constraint, is silently skipped; otherwise
it is appended. -/
def insertOrIgnore (db : List SnapshotRow) (mid q : Option String)
    (category : Option String) (yes no v24 vtot : ℚ) (ts : String) :
    List SnapshotRow :=
  match mid, q with
  | some mid, some q =>
    if db.any (rowKey mid ts) then
      db
    else
      db ++ [⟨mid, q, category, yes, no, v24, vtot, ts⟩]
  | _, _ => db

/-- `save_snapshot(markets)`: one `INSERT OR IGNORE` per market, in order.
The schema stamps `CURRENT_TIMESTAMP`; the single insertion time of the
batch is the explicit parameter `ts`. -/
def save_snapshot (db : List SnapshotRow) (markets : List Market) (ts : String) :
    List SnapshotRow :=
  markets.foldl (fun db m =>
    let yn := yesNoPrice m.outcomePrices
    insertOrIgnore db m.id m.question m.categoryTag yn.1 yn.2
      (m.volume24hr.getD 0) (m.volumeNum.getD 0) ts) db

/-! ## Backtest scorer (`analyze_signal_performance`) -/

/-- A major signal as read back from a persisted signals JSON file, with
the fields `analyze_signal_performance` uses. -/
structure BTSignal where
  question : String
  day_change : ℚ
  affected_stocks : List String
deriving DecidableEq, Repr

/-- One entry of the `major_signals` result list. -/
structure BacktestEntry where
  question : String
  ticker : String
  signal_direction : String
  prob_change : ℚ
  stock_return : ℚ
  correct_direction : Bool
deriving DecidableEq, Repr

/-- The aggregate backtest result for one signals file. -/
structure BacktestResult where
  major_signals : List BacktestEntry
  hit_rate : ℚ
  avg_return : ℚ
deriving DecidableEq, Repr

/-- `direction = "bullish" if signal["day_change"] > 0 else "bearish"`. -/
def direction (day_change : ℚ) : String :=
  if day_change > 0 then "bullish" else "bearish"

/-- `correct = (direction == "bullish" and total_return > 0) or
(direction == "bearish" and total_return < 0)`. -/
def score_entry (dir : String) (total_return : ℚ) : Bool :=
  (dir = "bullish" && total_return > 0) || (dir = "bearish" && total_return < 0)

/-- The per-ticker step of `analyze_signal_performance`: fetch the forward
returns for `ticker`; an empty mapping (provider failure, delisted ticker)
is skipped, otherwise the daily returns are summed and scored.  The
date-to-return mapping of the 7-day window is `lookup ticker`; the window
itself is fixed by the file's signal date and does not vary per ticker. -/
def scoreTicker (lookup : String → List (String × ℚ)) (s : BTSignal)
    (dir : String) (ticker : String) : Option BacktestEntry :=
  let returns := lookup ticker
  if returns.isEmpty then
    none
  else
    let total_return := (returns.map (·.2)).sum
    some { question := s.question.take 50
           ticker := ticker
           signal_direction := dir
           prob_change := s.day_change
           stock_return := roundTo 2 total_return
           correct_direction := score_entry dir total_return }

/-- `analyze_signal_performance`: score up to the first 3 affected tickers
of every major signal, then aggregate.  With zero scored entries the
`if results["major_signals"]:` guard leaves `hit_rate` and `avg_return`
at their initial 0. -/
def analyze_signal_performance (lookup : String → List (String × ℚ))
    (majors : List BTSignal) : BacktestResult :=
  let entries := majors.flatMap (fun s =>
    let dir := direction s.day_change
    (s.affected_stocks.take 3).filterMap (scoreTicker lookup s dir))
  { major_signals := entries
    hit_rate :=
      if entries.isEmpty then 0
      else roundTo 1 ((entries.countP (·.correct_direction) : ℚ) / entries.length * 100)
    avg_return :=
      if entries.isEmpty then 0
      else roundTo 2 ((entries.map (·.stock_return)).sum / entries.length) }

/-! ## Helper lemmas -/

/-- A list is a permutation of its three-way split along a `Tier`-valued
function: the `if/elif/else` of `calculate_signals` puts every market in
exactly one tier. -/
theorem filter_three_tiers_perm {α : Type _} (f : α → Tier) (l : List α) :
    l.filter (fun a => f a = Tier.major) ++ l.filter (fun a => f a = Tier.notable)
      ++ l.filter (fun a => f a = Tier.stable) |>.Perm l := by
  induction l with
  | nil => simp
  | cons a l ih =>
    rcases h : f a with _ | _ | _ <;>
      simp only [List.filter_cons, h, decide_eq_true_eq, reduceCtorEq,
        if_true, if_false, decide_True, decide_False, List.cons_append, List.append_assoc,
        reduceIte] <;>
      simp only [List.append_assoc] at ih
    · exact ih.cons a
    · exact List.perm_middle.trans (ih.cons a)
    · exact ((List.perm_middle.append_left _).trans List.perm_middle).trans (ih.cons a)

/-- `pySorted` permutes its input. -/
theorem pySorted_perm (l : List Signal) : (pySorted l).Perm l :=
  List.perm_insertionSort signalDescRel l

/-- `pySorted` output is sorted descending by `abs(day_change)`. -/
theorem pySorted_sorted (l : List Signal) : (pySorted l).Sorted signalDescRel :=
  List.sorted_insertionSort signalDescRel l

/-! ## C1 -/

/-- C1: for every day change and every pair of thresholds, the classifier
returns `major` exactly when `abs(day_change_pct) ≥ major_threshold`,
otherwise `notable` exactly when `abs(day_change_pct) ≥ notable_threshold`,
and `stable` otherwise; both lower bounds are inclusive. -/
theorem C1_classifier_tier_boundaries (d maj ntb : ℚ) :
    (classify_tier d maj ntb = .major ↔ |d| ≥ maj) ∧
    (classify_tier d maj ntb = .notable ↔ ¬ |d| ≥ maj ∧ |d| ≥ ntb) ∧
    (classify_tier d maj ntb = .stable ↔ ¬ |d| ≥ maj ∧ ¬ |d| ≥ ntb) := by
  unfold classify_tier
  split_ifs with h1 h2 <;> simp_all

/-! ## C3 -/

/-- C3: the backtest scores a signal bullish iff `day_change > 0` and
bearish otherwise, and `correct_direction` holds iff (bullish and the
summed forward return is strictly positive) or (bearish and it is
strictly negative); a summed return of exactly 0 is scored incorrect for
either direction. -/
theorem C3_backtest_direction_scoring (day_change total_return : ℚ) :
    (direction day_change = "bullish" ↔ day_change > 0) ∧
    (direction day_change = "bearish" ↔ ¬ day_change > 0) ∧
    (score_entry (direction day_change) total_return = true ↔
      (day_change > 0 ∧ total_return > 0) ∨ (¬ day_change > 0 ∧ total_return < 0)) ∧
    score_entry (direction day_change) 0 = false := by
  unfold direction score_entry
  split_ifs with h <;> simp_all

/-! ## C10 -/

/-- The concatenated tiers of a `calculate_signals` result permute the
input's signal dicts. -/
theorem calcSignals_tiers_perm (markets : List Market) (config : Config) (now : String) :
    ((calculate_signals markets config now).major
        ++ (calculate_signals markets config now).notable
        ++ (calculate_signals markets config now).stable).Perm (markets.map mkSignal) := by
  have h1 := pySorted_perm (tierList markets config .major)
  have h2 := pySorted_perm (tierList markets config .notable)
  have h3 : ((tierList markets config .major ++ tierList markets config .notable)
      ++ tierList markets config .stable).Perm (markets.map mkSignal) := by
    unfold tierList
    rw [← List.map_append, ← List.map_append]
    exact (filter_three_tiers_perm
      (fun m => classify_tier (rawDayChange m) config.major_change config.notable_change)
      markets).map mkSignal
  refine List.Perm.trans ?_ h3
  exact ((h1.append h2).append (List.Perm.refl _))

/-- The tier lengths of a `calculate_signals` result sum to the number of
input markets. -/
theorem calcSignals_length_sum (markets : List Market) (config : Config) (now : String) :
    (calculate_signals markets config now).major.length
      + (calculate_signals markets config now).notable.length
      + (calculate_signals markets config now).stable.length = markets.length := by
  have := (calcSignals_tiers_perm markets config now).length_eq
  simp only [List.length_append, List.length_map] at this
  omega

/-- C10: every market given to `calculate_signals` lands in exactly one of
the three tiers — the tier lengths sum to the number of input markets, and
the concatenation of the three tiers is a permutation of the input's
signals (nothing dropped, nothing duplicated). -/
theorem C10_tiers_partition_input (markets : List Market) (config : Config) (now : String) :
    ((calculate_signals markets config now).major.length
        + (calculate_signals markets config now).notable.length
        + (calculate_signals markets config now).stable.length = markets.length) ∧
    ((calculate_signals markets config now).major
        ++ (calculate_signals markets config now).notable
        ++ (calculate_signals markets config now).stable).Perm (markets.map mkSignal) :=
  ⟨calcSignals_length_sum markets config now, calcSignals_tiers_perm markets config now⟩

/-! ## C7 -/

/-- A market kept by `filter_relevant_markets` passed the volume check. -/
theorem mem_filter_relevant_volume (enum : List String → List String)
    (markets : List Market) (config : Config) :
    ∀ x ∈ filter_relevant_markets enum markets config,
      config.min_volume_24h ≤ x.volume24hr.getD 0 := by
  intro x hx
  unfold filter_relevant_markets at hx
  rcases List.mem_filterMap.1 hx with ⟨m, _, hm⟩
  by_cases hv : m.volume24hr.getD 0 < config.min_volume_24h
  · simp [hv] at hm
  · push_neg at hv
    simp only [if_neg (not_lt.2 hv)] at hm
    split at hm
    · cases hm
      simpa using hv
    · cases hm

/-- The tagged market `filter_relevant_markets` emits for a kept input. -/
def tagMarket (enum : List String → List String) (m : Market) (config : Config) :
    Market :=
  { m with
    categoryTag :=
      (categorize_market enum (m.question.getD "") (m.description.getD "") config).1
    affectedStocksTag :=
      some (categorize_market enum (m.question.getD "") (m.description.getD "") config).2 }

/-- One step of the `filter_relevant_markets` loop. -/
theorem filter_relevant_cons (enum : List String → List String) (m : Market)
    (rest : List Market) (config : Config) :
    filter_relevant_markets enum (m :: rest) config
      = if m.volume24hr.getD 0 < config.min_volume_24h then
          filter_relevant_markets enum rest config
        else if truthyOptStr
            (categorize_market enum (m.question.getD "") (m.description.getD "") config).1 then
          tagMarket enum m config :: filter_relevant_markets enum rest config
        else
          filter_relevant_markets enum rest config := by
  by_cases hv : m.volume24hr.getD 0 < config.min_volume_24h
  · simp only [filter_relevant_markets, List.filterMap_cons, if_pos hv]
  · by_cases ht : truthyOptStr
        (categorize_market enum (m.question.getD "") (m.description.getD "") config).1
    · simp only [filter_relevant_markets, List.filterMap_cons, if_neg hv, ht, if_true,
        if_pos, tagMarket]
    · simp only [filter_relevant_markets, List.filterMap_cons, if_neg hv,
        Bool.not_eq_true] at ht ⊢
      simp [ht]

/-- `filter_relevant_markets` keeps at most the markets that pass the
volume check. -/
theorem filter_relevant_length_le (enum : List String → List String)
    (markets : List Market) (config : Config) :
    (filter_relevant_markets enum markets config).length
      ≤ markets.countP (fun m => config.min_volume_24h ≤ m.volume24hr.getD 0) := by
  induction markets with
  | nil => simp [filter_relevant_markets]
  | cons m rest ih =>
    rw [filter_relevant_cons, List.countP_cons]
    by_cases hv : m.volume24hr.getD 0 < config.min_volume_24h
    · rw [if_pos hv]
      have : (decide (config.min_volume_24h ≤ m.volume24hr.getD 0)) = false := by
        simp [not_le.2 hv]
      rw [this]
      simp only [Bool.false_eq_true, if_false]
      omega
    · have hd : (decide (config.min_volume_24h ≤ m.volume24hr.getD 0)) = true := by
        simp [not_lt.1 hv]
      rw [if_neg hv, hd]
      simp only [eq_self_iff_true, if_true]
      split
      · simp only [List.length_cons]
        omega
      · omega

/-- C7: a market below the minimum 24-hour volume threshold is dropped by
`filter_relevant_markets` before keyword matching is even attempted — its
exclusion holds for every watchlist — every surviving market passed the
volume check, and the built signal set has at most as many signals as
there are markets meeting the threshold. -/
theorem C7_low_volume_never_reaches_classifier (enum : List String → List String)
    (markets : List Market) (config : Config) (m : Market) (rest : List Market)
    (now : String) :
    (m.volume24hr.getD 0 < config.min_volume_24h →
      ∀ wl : List (String × CatConfig),
        filter_relevant_markets enum (m :: rest) { config with watchlist := wl }
          = filter_relevant_markets enum rest { config with watchlist := wl }) ∧
    (∀ x ∈ filter_relevant_markets enum markets config,
      config.min_volume_24h ≤ x.volume24hr.getD 0) ∧
    ((build enum markets config now).major.length
        + (build enum markets config now).notable.length
        + (build enum markets config now).stable.length
      ≤ markets.countP (fun m => config.min_volume_24h ≤ m.volume24hr.getD 0)) := by
  refine ⟨?_, mem_filter_relevant_volume enum markets config, ?_⟩
  · intro hv wl
    unfold filter_relevant_markets
    rw [List.filterMap_cons]
    simp only [if_pos hv]
  · unfold build
    rw [calcSignals_length_sum]
    exact filter_relevant_length_le enum markets config

/-- A market for the C7 scenario, with the given 24-hour volume. -/
def mkVolMarket (i : ℕ) (vol : ℚ) : Market :=
  { id := some (toString i)
    question := some "fed"
    description := some ""
    outcomePrices := some (.arr [])
    oneDayPriceChange := some 0
    oneWeekPriceChange := some 0
    volume24hr := some vol
    volumeNum := some vol
    slug := none }

/-- Ten markets, three of them below the volume threshold 1000. -/
def marketsC7 : List Market :=
  [mkVolMarket 0 5000, mkVolMarket 1 5000, mkVolMarket 2 500, mkVolMarket 3 5000,
   mkVolMarket 4 500, mkVolMarket 5 5000, mkVolMarket 6 5000, mkVolMarket 7 500,
   mkVolMarket 8 5000, mkVolMarket 9 5000]

/-- A minimal configuration with volume threshold 1000. -/
def cfgC7 : Config :=
  { watchlist := [("fed", { keywords := some ["fed"], stock_impact := some [] })]
    min_volume_24h := 1000
    major_change := 5
    notable_change := 2 }

/-- Witness for C7: ten input markets, three below the threshold, and the
built signal set holds at most seven signals. -/
theorem C7_witness :
    marketsC7.length = 10 ∧
    marketsC7.countP (fun m => m.volume24hr.getD 0 < cfgC7.min_volume_24h) = 3 ∧
    (mkVolMarket 2 500).volume24hr.getD 0 < cfgC7.min_volume_24h ∧
    ((build List.dedup marketsC7 cfgC7 "T").major.length
        + (build List.dedup marketsC7 cfgC7 "T").notable.length
        + (build List.dedup marketsC7 cfgC7 "T").stable.length ≤ 7) := by
  refine ⟨by decide, by decide, by decide, ?_⟩
  have h := (C7_low_volume_never_reaches_classifier List.dedup marketsC7 cfgC7
    (mkVolMarket 2 500) [] "T").2.2
  have hc : marketsC7.countP
      (fun m => cfgC7.min_volume_24h ≤ m.volume24hr.getD 0) = 7 := by decide
  rw [hc] at h
  exact h

/-! ## C9 -/

/-- C9: a market record whose outcome-price field is absent, fails to
parse, parses to an empty array, or whose first entry is not numeric gets
probability 0, and processing continues — the remaining records still all
land in the signal set. -/
theorem C9_bad_prices_default_to_zero (m : Market) (markets : List Market)
    (config : Config) (now : String)
    (h : m.outcomePrices = none ∨ m.outcomePrices = some .malformed
        ∨ m.outcomePrices = some (.arr [])
        ∨ ∃ rest, m.outcomePrices = some (.arr (.notNum :: rest))) :
    (mkSignal m).current_prob = 0 ∧
    ((calculate_signals (m :: markets) config now).major.length
        + (calculate_signals (m :: markets) config now).notable.length
        + (calculate_signals (m :: markets) config now).stable.length
      = markets.length + 1) := by
  constructor
  · have hy : yesPrice m.outcomePrices = 0 := by
      rcases h with h | h | h | ⟨rest, h⟩ <;> simp [yesPrice, h]
    simp only [mkSignal, hy, roundTo]
    norm_num
  · rw [calcSignals_length_sum]
    simp

/-- Witness for C9: a market whose `outcomePrices` raised in `json.loads`
still yields probability 0 and one stable-tier signal. -/
theorem C9_witness :
    ((mkVolMarket 0 5000 |>.outcomePrices) = some (.arr [])) ∧
    (mkSignal (mkVolMarket 0 5000)).current_prob = 0 ∧
    ((calculate_signals [mkVolMarket 0 5000] cfgC7 "T").major.length
        + (calculate_signals [mkVolMarket 0 5000] cfgC7 "T").notable.length
        + (calculate_signals [mkVolMarket 0 5000] cfgC7 "T").stable.length = 1) :=
  ⟨rfl,
    C9_bad_prices_default_to_zero (mkVolMarket 0 5000) [] cfgC7 "T"
      (Or.inr (Or.inr (Or.inl rfl)))⟩

/-! ## C8 -/

/-- A successful `scoreTicker` records the looked-up ticker and only
happens when the lookup returned data. -/
theorem scoreTicker_some {lookup : String → List (String × ℚ)} {s : BTSignal}
    {dir ticker : String} {e : BacktestEntry}
    (h : scoreTicker lookup s dir ticker = some e) :
    e.ticker = ticker ∧ lookup ticker ≠ [] := by
  revert h
  cases hl : lookup ticker with
  | nil => simp [scoreTicker, hl]
  | cons p ps =>
    simp only [scoreTicker, hl, List.isEmpty_cons, Bool.false_eq_true, if_false,
      Option.some.injEq]
    rintro rfl
    exact ⟨rfl, by simp⟩

/-- C8: scoring with zero scored entries (an empty major tier, or every
ticker lookup empty) yields hit-rate 0 and average-return 0 rather than a
division by zero, and a ticker whose lookup returns no data contributes no
entry at all. -/
theorem C8_zero_entries_degrade_gracefully (lookup : String → List (String × ℚ))
    (majors : List BTSignal) (t : String) :
    (analyze_signal_performance lookup []
      = { major_signals := [], hit_rate := 0, avg_return := 0 }) ∧
    ((∀ tk, lookup tk = []) →
      (analyze_signal_performance lookup majors).major_signals = []
        ∧ (analyze_signal_performance lookup majors).hit_rate = 0
        ∧ (analyze_signal_performance lookup majors).avg_return = 0) ∧
    (lookup t = [] →
      ∀ e ∈ (analyze_signal_performance lookup majors).major_signals, e.ticker ≠ t) := by
  refine ⟨rfl, ?_, ?_⟩
  · intro hall
    have hnil : (majors.flatMap (fun s =>
        ((s.affected_stocks.take 3).filterMap
          (scoreTicker lookup s (direction s.day_change))))) = [] := by
      rw [List.eq_nil_iff_forall_not_mem]
      intro e he
      rcases List.mem_flatMap.1 he with ⟨s, _, hes⟩
      rcases List.mem_filterMap.1 hes with ⟨tk, _, htk⟩
      exact (scoreTicker_some htk).2 (hall tk)
    simp [analyze_signal_performance, hnil]
  · intro ht e he
    simp only [analyze_signal_performance] at he
    rcases List.mem_flatMap.1 he with ⟨s, _, hes⟩
    rcases List.mem_filterMap.1 hes with ⟨tk, _, htk⟩
    rcases scoreTicker_some htk with ⟨htk1, htk2⟩
    intro het
    have htt : tk = t := by rw [← htk1, het]
    exact htk2 (by rw [htt]; exact ht)

/-- The always-empty stock-return lookup (provider failure for every
ticker). -/
def emptyLookup : String → List (String × ℚ) := fun _ => []

/-- A single bullish major signal to score. -/
def majorsC8 : List BTSignal :=
  [{ question := "Fed rate cut?", day_change := 6, affected_stocks := ["JPM", "GS"] }]

/-- Witness for C8: with every lookup empty, the result has no entries and
hit-rate and average-return 0. -/
theorem C8_witness :
    (∀ tk, emptyLookup tk = []) ∧
    ((analyze_signal_performance emptyLookup majorsC8).major_signals = []
      ∧ (analyze_signal_performance emptyLookup majorsC8).hit_rate = 0
      ∧ (analyze_signal_performance emptyLookup majorsC8).avg_return = 0) :=
  ⟨fun _ => rfl,
    (C8_zero_entries_degrade_gracefully emptyLookup majorsC8 "JPM").2.1 fun _ => rfl⟩

/-! ## C5 -/

/-- The per-market step of the `save_snapshot` loop. -/
def snapStep (ts : String) (db : List SnapshotRow) (m : Market) : List SnapshotRow :=
  insertOrIgnore db m.id m.question m.categoryTag
    (yesNoPrice m.outcomePrices).1 (yesNoPrice m.outcomePrices).2
    (m.volume24hr.getD 0) (m.volumeNum.getD 0) ts

/-- `save_snapshot` is the fold of its per-market step. -/
theorem save_snapshot_eq_foldl (db : List SnapshotRow) (markets : List Market)
    (ts : String) : save_snapshot db markets ts = markets.foldl (snapStep ts) db :=
  rfl

/-- `insertOrIgnore` never removes a present key. -/
theorem insertOrIgnore_any_mono {db : List SnapshotRow} {mid ts : String}
    (h : db.any (rowKey mid ts) = true) (mid' q' c : Option String) (y n v vt : ℚ)
    (ts' : String) :
    (insertOrIgnore db mid' q' c y n v vt ts').any (rowKey mid ts) = true := by
  unfold insertOrIgnore
  cases mid' with
  | none => exact h
  | some a =>
    cases q' with
    | none => exact h
    | some b =>
      dsimp only
      split_ifs with hk
      · exact h
      · simp [List.any_append, h]

/-- The `save_snapshot` step never removes a present key. -/
theorem snapStep_any_mono {db : List SnapshotRow} {mid ts : String}
    (h : db.any (rowKey mid ts) = true) (ts' : String) (m : Market) :
    (snapStep ts' db m).any (rowKey mid ts) = true :=
  insertOrIgnore_any_mono h m.id m.question m.categoryTag
    (yesNoPrice m.outcomePrices).1 (yesNoPrice m.outcomePrices).2
    (m.volume24hr.getD 0) (m.volumeNum.getD 0) ts' 

/-- After its step runs on an insertable market, the market's key is in
the table. -/
theorem snapStep_ensures_key {m : Market} {mid q : String} (ts : String)
    (hid : m.id = some mid) (hq : m.question = some q) (db : List SnapshotRow) :
    (snapStep ts db m).any (rowKey mid ts) = true := by
  unfold snapStep insertOrIgnore
  rw [hid, hq]
  dsimp only
  split_ifs with hk
  · exact hk
  · simp [List.any_append, rowKey]

/-- The step ignores a market whose key is already present. -/
theorem snapStep_noop_of_key {m : Market} {mid q ts : String} {db : List SnapshotRow}
    (hid : m.id = some mid) (hq : m.question = some q)
    (hk : db.any (rowKey mid ts) = true) : snapStep ts db m = db := by
  unfold snapStep insertOrIgnore
  rw [hid, hq]
  dsimp only
  rw [if_pos hk]

/-- The step ignores a market with a NULL id or question. -/
theorem snapStep_noop_of_null {m : Market} {ts : String} {db : List SnapshotRow}
    (h : m.id = none ∨ m.question = none) : snapStep ts db m = db := by
  unfold snapStep insertOrIgnore
  rcases h with h | h
  · rw [h]
  · rw [h]
    cases m.id <;> rfl

/-- A key present before `save_snapshot` is present after. -/
theorem save_snapshot_any_mono {mid ts : String} (markets : List Market)
    {db : List SnapshotRow} (h : db.any (rowKey mid ts) = true) :
    (save_snapshot db markets ts).any (rowKey mid ts) = true := by
  induction markets generalizing db with
  | nil => exact h
  | cons m rest ih =>
    rw [save_snapshot_eq_foldl, List.foldl_cons, ← save_snapshot_eq_foldl]
    exact ih (snapStep_any_mono h ts m)

/-- After `save_snapshot`, every insertable input market's key is in the
table. -/
theorem save_snapshot_ensures_key {m : Market} {mid q ts : String}
    (markets : List Market) (hm : m ∈ markets) (hid : m.id = some mid)
    (hq : m.question = some q) (db : List SnapshotRow) :
    (save_snapshot db markets ts).any (rowKey mid ts) = true := by
  induction markets generalizing db with
  | nil => cases hm
  | cons m0 rest ih =>
    rw [save_snapshot_eq_foldl, List.foldl_cons, ← save_snapshot_eq_foldl]
    rcases List.mem_cons.1 hm with rfl | hm0
    · exact save_snapshot_any_mono rest (snapStep_ensures_key ts hid hq db)
    · exact ih hm0 _

/-- `save_snapshot` changes nothing when every insertable input market's
key is already present. -/
theorem save_snapshot_noop (markets : List Market) {ts : String}
    {db : List SnapshotRow}
    (h : ∀ m ∈ markets, ∀ mid q, m.id = some mid → m.question = some q →
      db.any (rowKey mid ts) = true) :
    save_snapshot db markets ts = db := by
  induction markets with
  | nil => rfl
  | cons m rest ih =>
    have hstep : snapStep ts db m = db := by
      cases hid : m.id with
      | none => exact snapStep_noop_of_null (Or.inl hid)
      | some mid =>
        cases hq : m.question with
        | none => exact snapStep_noop_of_null (Or.inr hq)
        | some q =>
          exact snapStep_noop_of_key hid hq
            (h m (List.mem_cons_self m rest) mid q hid hq)
    rw [save_snapshot_eq_foldl, List.foldl_cons, hstep, ← save_snapshot_eq_foldl]
    exact ih (fun m0 hm0 mid q hid hq => h m0 (List.mem_cons_of_mem m hm0) mid q hid hq)

/-- C5: replaying `save_snapshot` on the same batch and timestamp is a
no-op — the table is byte-identical, an insertable market inserted into a
table without its `(market identifier, timestamp)` key ends up stored
exactly once even after a second append, and `INSERT OR IGNORE` with an
already-present key leaves the table unchanged whatever row data it
carries. -/
theorem C5_snapshot_reinsert_noop (db : List SnapshotRow) (markets : List Market)
    (m : Market) (mid q ts : String)
    (hid : m.id = some mid) (hq : m.question = some q)
    (hnew : db.countP (rowKey mid ts) = 0) :
    (save_snapshot (save_snapshot db markets ts) markets ts
      = save_snapshot db markets ts) ∧
    ((save_snapshot (save_snapshot db [m] ts) [m] ts).countP (rowKey mid ts) = 1) ∧
    (∀ (db2 : List SnapshotRow) (cat : Option String) (y n v vt : ℚ) (q2 : String),
      db2.any (rowKey mid ts) = true →
      insertOrIgnore db2 (some mid) (some q2) cat y n v vt ts = db2) := by
  refine ⟨?_, ?_, ?_⟩
  · exact save_snapshot_noop markets
      (fun m0 hm0 mid0 q0 hid0 hq0 => save_snapshot_ensures_key markets hm0 hid0 hq0 db)
  · have hidem : save_snapshot (save_snapshot db [m] ts) [m] ts
        = save_snapshot db [m] ts :=
      save_snapshot_noop [m]
        (fun m0 hm0 mid0 q0 hid0 hq0 => save_snapshot_ensures_key [m] hm0 hid0 hq0 db)
    rw [hidem]
    have hany : db.any (rowKey mid ts) = false := by
      rw [List.any_eq_false]
      intro r hr
      have := List.countP_eq_zero.1 hnew r hr
      simpa using this
    have hone : save_snapshot db [m] ts
        = db ++ [⟨mid, q, m.categoryTag, (yesNoPrice m.outcomePrices).1,
            (yesNoPrice m.outcomePrices).2, m.volume24hr.getD 0, m.volumeNum.getD 0, ts⟩] := by
      rw [save_snapshot_eq_foldl, List.foldl_cons, List.foldl_nil]
      unfold snapStep insertOrIgnore
      rw [hid, hq]
      dsimp only
      rw [if_neg (by rw [hany]; exact Bool.false_ne_true)]
    rw [hone, List.countP_append, hnew]
    simp [rowKey]
  · intro db2 cat y n v vt q2 hk
    unfold insertOrIgnore
    dsimp only
    rw [if_pos hk]

/-- Witness for C5: inserting one market twice into an empty table stores
exactly one row. -/
theorem C5_witness :
    ((mkVolMarket 1 5000).id = some "1") ∧
    ((mkVolMarket 1 5000).question = some "fed") ∧
    (([] : List SnapshotRow).countP (rowKey "1" "T") = 0) ∧
    ((save_snapshot (save_snapshot ([] : List SnapshotRow) [mkVolMarket 1 5000] "T")
        [mkVolMarket 1 5000] "T").countP (rowKey "1" "T") = 1) :=
  ⟨rfl, rfl, rfl,
    (C5_snapshot_reinsert_noop [] [mkVolMarket 1 5000] (mkVolMarket 1 5000)
      "1" "fed" "T" rfl rfl rfl).2.1⟩

/-! ## C2 -/

/-- `List.dedup` is a valid model of `list(set(·))`. -/
theorem validSetEnum_dedup : ValidSetEnum (fun l => l.dedup) :=
  fun l => ⟨l.nodup_dedup, fun _ => List.mem_dedup⟩

/-- The matcher scan returns `(None, [])` when no category's keywords hit
the text. -/
theorem categorizeAux_no_hit (enum : List String → List String) (text : List Char)
    (wl : List (String × CatConfig))
    (h : ∀ p ∈ wl, keywordHit text (p.2.keywords.getD []) = false) :
    categorizeAux enum text wl = (none, []) := by
  induction wl with
  | nil => rfl
  | cons p rest ih =>
    obtain ⟨category, cc⟩ := p
    unfold categorizeAux
    rw [if_neg (by
      have := h (category, cc) (List.mem_cons_self _ _)
      simp only [this, Bool.false_eq_true]
      exact fun hf => hf)]
    exact ih (fun q hq => h q (List.mem_cons_of_mem _ hq))

/-- The matcher scan stops at the first category whose keywords hit. -/
theorem categorizeAux_first_hit (enum : List String → List String) (text : List Char)
    (wl : List (String × CatConfig)) (i : ℕ) (hi : i < wl.length)
    (hhit : keywordHit text ((wl.get ⟨i, hi⟩).2.keywords.getD []) = true)
    (hbefore : ∀ j (hj : j < i),
      keywordHit text ((wl.get ⟨j, lt_trans hj hi⟩).2.keywords.getD []) = false) :
    categorizeAux enum text wl
      = (some (wl.get ⟨i, hi⟩).1, enum (collectStocks (wl.get ⟨i, hi⟩).2)) := by
  induction wl generalizing i with
  | nil => exact absurd hi (Nat.not_lt_zero i)
  | cons p rest ih =>
    obtain ⟨category, cc⟩ := p
    cases i with
    | zero =>
      simp only [List.get] at hhit ⊢
      unfold categorizeAux
      rw [if_pos hhit]
    | succ k =>
      simp only [List.get] at hhit ⊢
      unfold categorizeAux
      rw [if_neg (by
        have := hbefore 0 (Nat.succ_pos k)
        simp only [List.get] at this
        simp only [this, Bool.false_eq_true]
        exact fun hf => hf)]
      exact ih k (Nat.lt_of_succ_lt_succ hi) hhit
        (fun j hj => by
          have := hbefore (j + 1) (Nat.succ_lt_succ hj)
          simpa only [List.get] using this)

/-- C2: the matcher scans the watchlist in declared order; with no keyword
hit anywhere it returns `(None, [])`, and on the first category whose
keywords occur in the lowercased question-plus-description it returns that
category — regardless of any later category also matching — together with
a duplicate-free list holding exactly the tickers of that category's
stock-impact lists. -/
theorem C2_matcher_first_match_wins (enum : List String → List String)
    (henum : ValidSetEnum enum) (question description : String) (config : Config) :
    ((∀ p ∈ config.watchlist,
        keywordHit (lowerStr (question ++ " " ++ description))
          (p.2.keywords.getD []) = false) →
      categorize_market enum question description config = (none, [])) ∧
    (∀ i (hi : i < config.watchlist.length),
      keywordHit (lowerStr (question ++ " " ++ description))
        ((config.watchlist.get ⟨i, hi⟩).2.keywords.getD []) = true →
      (∀ j (hj : j < i),
        keywordHit (lowerStr (question ++ " " ++ description))
          ((config.watchlist.get ⟨j, lt_trans hj hi⟩).2.keywords.getD []) = false) →
      (categorize_market enum question description config).1
          = some (config.watchlist.get ⟨i, hi⟩).1 ∧
        (categorize_market enum question description config).2.Nodup ∧
        ∀ x, x ∈ (categorize_market enum question description config).2 ↔
          x ∈ collectStocks (config.watchlist.get ⟨i, hi⟩).2) := by
  constructor
  · intro h
    exact categorizeAux_no_hit enum _ config.watchlist h
  · intro i hi hhit hbefore
    have heq := categorizeAux_first_hit enum
      (lowerStr (question ++ " " ++ description)) config.watchlist i hi hhit hbefore
    unfold categorize_market
    rw [heq]
    exact ⟨rfl, (henum _).1, fun x => (henum _).2 x⟩

/-- A watchlist with two categories whose keywords both occur in the
witness text. -/
def cfgC2 : Config :=
  { watchlist := [("fed", { keywords := some ["fed", "rate"],
                            stock_impact := some [("banks", .list ["JPM", "GS"]),
                                                  ("note", .other)] }),
                  ("ai",  { keywords := some ["ai"],
                            stock_impact := some [("chips", .list ["NVDA"])] })]
    min_volume_24h := 1000
    major_change := 5
    notable_change := 2 }

/-- Witness for C2: a text hitting both categories is assigned to the
first-declared one, with the deduplicated union of its ticker lists. -/
theorem C2_witness :
    ValidSetEnum (fun l => l.dedup) ∧
    keywordHit (lowerStr ("Fed rate cut?" ++ " " ++ "AI boom"))
      ((cfgC2.watchlist.get ⟨0, by decide⟩).2.keywords.getD []) = true ∧
    keywordHit (lowerStr ("Fed rate cut?" ++ " " ++ "AI boom"))
      ((cfgC2.watchlist.get ⟨1, by decide⟩).2.keywords.getD []) = true ∧
    (categorize_market (fun l => l.dedup) "Fed rate cut?" "AI boom" cfgC2).1
      = some "fed" ∧
    (categorize_market (fun l => l.dedup) "Fed rate cut?" "AI boom" cfgC2).2.Nodup ∧
    (∀ x, x ∈ (categorize_market (fun l => l.dedup) "Fed rate cut?" "AI boom" cfgC2).2 ↔
      x ∈ collectStocks (cfgC2.watchlist.get ⟨0, by decide⟩).2) := by
  have h := (C2_matcher_first_match_wins (fun l => l.dedup) validSetEnum_dedup
    "Fed rate cut?" "AI boom" cfgC2).2 0 (by decide) (by decide)
    (fun j hj => absurd hj (Nat.not_lt_zero j))
  exact ⟨validSetEnum_dedup, by decide, by decide, h.1, h.2.1, h.2.2⟩

/-! ## C6 -/

/-- Stable insertion keeps the elements of any single `abs(day_change)`
class in their existing order: filtering the insertion result by a key
value gives the insertion of the filtered lists. -/
theorem orderedInsert_filter_absDC (a : Signal) (l : List Signal) (v : ℚ) :
    (l.orderedInsert signalDescRel a).filter (fun s => |s.day_change| = v)
      = if |a.day_change| = v
        then a :: l.filter (fun s => |s.day_change| = v)
        else l.filter (fun s => |s.day_change| = v) := by
  induction l with
  | nil =>
    by_cases hpa : |a.day_change| = v <;>
      simp [List.orderedInsert, List.filter, hpa]
  | cons b bs ih =>
    by_cases hr : signalDescRel a b
    · rw [List.orderedInsert, if_pos hr]
      by_cases hpa : |a.day_change| = v <;>
        simp [List.filter_cons, hpa]
    · rw [List.orderedInsert, if_neg hr]
      by_cases hpb : |b.day_change| = v
      · by_cases hpa : |a.day_change| = v
        · exact absurd (le_of_eq (hpb.trans hpa.symm)) hr
        · simp [List.filter_cons, hpa, hpb, ih]
      · by_cases hpa : |a.day_change| = v <;>
          simp [List.filter_cons, hpa, hpb, ih]

/-- The stable sort of `calculate_signals` keeps each `abs(day_change)`
tie class in fetch order. -/
theorem pySorted_filter_absDC (l : List Signal) (v : ℚ) :
    (pySorted l).filter (fun s => |s.day_change| = v)
      = l.filter (fun s => |s.day_change| = v) := by
  unfold pySorted
  induction l with
  | nil => rfl
  | cons a as ih =>
    rw [List.insertionSort, orderedInsert_filter_absDC, ih]
    by_cases hpa : |a.day_change| = v <;> simp [List.filter_cons, hpa]

/-- C6 (amended): in every `calculate_signals` result the major and
notable tiers are sorted descending by `abs(day_change)` — a stable sort,
each tie class staying in original fetch order — but the stable tier is
left exactly in fetch order: the code never re-sorts it by probability. -/
theorem C6_amended_tier_ranking (markets : List Market) (config : Config) (now : String) :
    ((calculate_signals markets config now).major.Sorted signalDescRel ∧
      (calculate_signals markets config now).notable.Sorted signalDescRel) ∧
    ((calculate_signals markets config now).major.Perm
        (tierList markets config .major) ∧
      (calculate_signals markets config now).notable.Perm
        (tierList markets config .notable)) ∧
    ((∀ v : ℚ, (calculate_signals markets config now).major.filter
          (fun s => |s.day_change| = v)
        = (tierList markets config .major).filter (fun s => |s.day_change| = v)) ∧
      (∀ v : ℚ, (calculate_signals markets config now).notable.filter
          (fun s => |s.day_change| = v)
        = (tierList markets config .notable).filter (fun s => |s.day_change| = v))) ∧
    (calculate_signals markets config now).stable = tierList markets config .stable :=
  ⟨⟨pySorted_sorted _, pySorted_sorted _⟩,
    ⟨pySorted_perm _, pySorted_perm _⟩,
    ⟨fun v => pySorted_filter_absDC _ v, fun v => pySorted_filter_absDC _ v⟩,
    rfl⟩

/-- A stable-tier market with yes-price `p` (all change fields 0). -/
def mProb (i : ℕ) (p : ℚ) : Market :=
  { id := some (toString i)
    question := some "fed"
    description := some ""
    outcomePrices := some (.arr [.num p])
    oneDayPriceChange := some 0
    oneWeekPriceChange := some 0
    volume24hr := some 5000
    volumeNum := some 5000
    slug := none }

/-- Two stable-tier markets in fetch order: probability 10% first, 50%
second. -/
def marketsC6 : List Market := [mProb 0 (1/10), mProb 1 (1/2)]

/-- C6 counterexample: the stable tier of a built signal set is not sorted
descending by current probability — the 10%-probability market fetched
first stays ahead of the 50% one. -/
theorem C6_counterexample :
    ¬ (calculate_signals marketsC6 cfgC7 "T").stable.Sorted
        (fun a b => b.current_prob ≤ a.current_prob) := by
  have hst : (calculate_signals marketsC6 cfgC7 "T").stable
      = [{ id := some "0", question := some "fed", category := none,
           affected_stocks := [], current_prob := 10, day_change := 0,
           week_change := 0, volume_24h := 5000, volume_total := 5000, slug := none },
         { id := some "1", question := some "fed", category := none,
           affected_stocks := [], current_prob := 50, day_change := 0,
           week_change := 0, volume_24h := 5000, volume_total := 5000, slug := none }] := by
    norm_num [calculate_signals, tierList, classify_tier, rawDayChange, mkSignal,
      yesPrice, roundTo, marketsC6, mProb, cfgC7, List.filter_cons, round_eq,
      Int.floor_eq_iff]
    exact ⟨rfl, rfl⟩
  rw [hst]
  intro h
  have := (List.pairwise_cons.1 h).1 _ (List.mem_cons_self _ _)
  norm_num at this

/-! ## C4 -/

/-- A signal with its affected-stocks list abstracted to the underlying
finite set — the part of the output that `list(set(·))` leaves to the
process's hash seed. -/
structure NSignal where
  id : Option String
  question : Option String
  category : Option String
  affected_stocks : Finset String
  current_prob : ℚ
  day_change : ℚ
  week_change : ℚ
  volume_24h : ℚ
  volume_total : ℚ
  slug : Option String
deriving DecidableEq

/-- A signal set up to the ordering inside each affected-stocks list. -/
structure NSignalSet where
  major : List NSignal
  notable : List NSignal
  stable : List NSignal
  timestamp : String
deriving DecidableEq

/-- Forget the ordering of a signal's affected-stocks list. -/
def normSignal (s : Signal) : NSignal :=
  { id := s.id
    question := s.question
    category := s.category
    affected_stocks := s.affected_stocks.toFinset
    current_prob := s.current_prob
    day_change := s.day_change
    week_change := s.week_change
    volume_24h := s.volume_24h
    volume_total := s.volume_total
    slug := s.slug }

/-- Forget the affected-stocks orderings of a whole signal set. -/
def normSet (ss : SignalSet) : NSignalSet :=
  { major := ss.major.map normSignal
    notable := ss.notable.map normSignal
    stable := ss.stable.map normSignal
    timestamp := ss.timestamp }

/-- A market with its `_affected_stocks` tag abstracted to a set. -/
structure NMarket where
  id : Option String
  question : Option String
  description : Option String
  outcomePrices : Option PricesField
  oneDayPriceChange : Option ℚ
  oneWeekPriceChange : Option ℚ
  volume24hr : Option ℚ
  volumeNum : Option ℚ
  slug : Option String
  categoryTag : Option String
  affectedStocksTag : Finset String
deriving DecidableEq

/-- Forget the ordering of a market's `_affected_stocks` tag. -/
def normMarket (m : Market) : NMarket :=
  { id := m.id
    question := m.question
    description := m.description
    outcomePrices := m.outcomePrices
    oneDayPriceChange := m.oneDayPriceChange
    oneWeekPriceChange := m.oneWeekPriceChange
    volume24hr := m.volume24hr
    volumeNum := m.volumeNum
    slug := m.slug
    categoryTag := m.categoryTag
    affectedStocksTag := (m.affectedStocksTag.getD []).toFinset }

/-- The sort relation of `calculate_signals` on normalised signals. -/
def nsignalDescRel (a b : NSignal) : Prop := |b.day_change| ≤ |a.day_change|

instance : DecidableRel nsignalDescRel := fun a b =>
  inferInstanceAs (Decidable (|b.day_change| ≤ |a.day_change|))

/-- The matcher's category choice, and its ticker result up to ordering,
do not depend on which valid set enumeration models `list(set(·))`. -/
theorem categorizeAux_enum_agnostic {e1 e2 : List String → List String}
    (h1 : ValidSetEnum e1) (h2 : ValidSetEnum e2) (text : List Char)
    (wl : List (String × CatConfig)) :
    (categorizeAux e1 text wl).1 = (categorizeAux e2 text wl).1 ∧
    ((categorizeAux e1 text wl).2).toFinset = ((categorizeAux e2 text wl).2).toFinset := by
  induction wl with
  | nil => exact ⟨rfl, rfl⟩
  | cons p rest ih =>
    obtain ⟨category, cc⟩ := p
    unfold categorizeAux
    by_cases hh : keywordHit text (cc.keywords.getD []) = true
    · rw [if_pos hh, if_pos hh]
      refine ⟨rfl, ?_⟩
      ext x
      simp only [List.mem_toFinset]
      rw [(h1 (collectStocks cc)).2 x, (h2 (collectStocks cc)).2 x]
    · rw [if_neg hh, if_neg hh]
      exact ih

/-- The tagged market a kept input produces, up to stocks ordering, does
not depend on the set enumeration. -/
theorem tagMarket_norm_eq {e1 e2 : List String → List String}
    (h1 : ValidSetEnum e1) (h2 : ValidSetEnum e2) (m : Market) (config : Config) :
    normMarket (tagMarket e1 m config) = normMarket (tagMarket e2 m config) := by
  obtain ⟨hcat, hfin⟩ := categorizeAux_enum_agnostic h1 h2
    (lowerStr ((m.question.getD "") ++ " " ++ (m.description.getD "")))
    config.watchlist
  simp only [normMarket, tagMarket, categorize_market, Option.getD_some]
  rw [hcat, hfin]

/-- Up to stocks ordering, `filter_relevant_markets` does not depend on
the set enumeration. -/
theorem filter_relevant_norm_eq {e1 e2 : List String → List String}
    (h1 : ValidSetEnum e1) (h2 : ValidSetEnum e2) (raw : List Market)
    (config : Config) :
    (filter_relevant_markets e1 raw config).map normMarket
      = (filter_relevant_markets e2 raw config).map normMarket := by
  induction raw with
  | nil => rfl
  | cons m rest ih =>
    rw [filter_relevant_cons, filter_relevant_cons]
    have hcat := (categorizeAux_enum_agnostic h1 h2
      (lowerStr ((m.question.getD "") ++ " " ++ (m.description.getD "")))
      config.watchlist).1
    have htr : truthyOptStr
        (categorize_market e1 (m.question.getD "") (m.description.getD "") config).1
        = truthyOptStr
          (categorize_market e2 (m.question.getD "") (m.description.getD "") config).1 := by
      unfold categorize_market
      rw [hcat]
    by_cases hv : m.volume24hr.getD 0 < config.min_volume_24h
    · rw [if_pos hv, if_pos hv]
      exact ih
    · rw [if_neg hv, if_neg hv]
      by_cases ht : truthyOptStr
          (categorize_market e1 (m.question.getD "") (m.description.getD "") config).1 = true
      · rw [if_pos ht, if_pos (by rw [← htr]; exact ht)]
        simp only [List.map_cons]
        rw [tagMarket_norm_eq h1 h2 m config, ih]
      · rw [if_neg ht, if_neg (by rw [← htr]; exact ht)]
        exact ih

/-- Two markets with the same normalisation agree on every field the
signal builder reads. -/
theorem normMarket_fields {m1 m2 : Market} (h : normMarket m1 = normMarket m2) :
    m1.id = m2.id ∧ m1.question = m2.question ∧ m1.categoryTag = m2.categoryTag ∧
    m1.outcomePrices = m2.outcomePrices ∧
    m1.oneDayPriceChange = m2.oneDayPriceChange ∧
    m1.oneWeekPriceChange = m2.oneWeekPriceChange ∧
    m1.volume24hr = m2.volume24hr ∧ m1.volumeNum = m2.volumeNum ∧
    m1.slug = m2.slug ∧
    (m1.affectedStocksTag.getD []).toFinset = (m2.affectedStocksTag.getD []).toFinset :=
  ⟨congrArg NMarket.id h, congrArg NMarket.question h, congrArg NMarket.categoryTag h,
    congrArg NMarket.outcomePrices h, congrArg NMarket.oneDayPriceChange h,
    congrArg NMarket.oneWeekPriceChange h, congrArg NMarket.volume24hr h,
    congrArg NMarket.volumeNum h, congrArg NMarket.slug h,
    congrArg NMarket.affectedStocksTag h⟩

/-- Markets with the same normalisation classify identically and build
signals with the same normalisation. -/
theorem mkSignal_norm_eq {m1 m2 : Market} (h : normMarket m1 = normMarket m2) :
    rawDayChange m1 = rawDayChange m2 ∧
    normSignal (mkSignal m1) = normSignal (mkSignal m2) := by
  obtain ⟨hid, hq, hcat, hop, hd, hw, hv, hvn, hs, hf⟩ := normMarket_fields h
  constructor
  · unfold rawDayChange
    rw [hd]
  · simp only [normSignal, mkSignal, rawDayChange]
    rw [hid, hq, hcat, hop, hd, hw, hv, hvn, hs, hf]

/-- One step of the tier bucketing. -/
theorem tierList_cons (m : Market) (ms : List Market) (config : Config) (t : Tier) :
    tierList (m :: ms) config t
      = if classify_tier (rawDayChange m) config.major_change config.notable_change = t
        then mkSignal m :: tierList ms config t
        else tierList ms config t := by
  unfold tierList
  rw [List.filter_cons]
  by_cases hc : classify_tier (rawDayChange m) config.major_change config.notable_change = t
  · simp [hc]
  · simp [hc]

/-- Up to stocks ordering, the tier lists depend only on the markets'
normalisations. -/
theorem tierList_norm_eq {ms1 ms2 : List Market}
    (h : ms1.map normMarket = ms2.map normMarket) (config : Config) (t : Tier) :
    (tierList ms1 config t).map normSignal = (tierList ms2 config t).map normSignal := by
  induction ms1 generalizing ms2 with
  | nil =>
    cases ms2 with
    | nil => rfl
    | cons m2 r2 => simp at h
  | cons m1 r1 ih =>
    cases ms2 with
    | nil => simp at h
    | cons m2 r2 =>
      simp only [List.map_cons, List.cons.injEq] at h
      obtain ⟨hm, hr⟩ := h
      obtain ⟨hdc, hsig⟩ := mkSignal_norm_eq hm
      rw [tierList_cons, tierList_cons, hdc]
      by_cases hc : classify_tier (rawDayChange m2) config.major_change
          config.notable_change = t
      · rw [if_pos hc, if_pos hc]
        simp only [List.map_cons]
        rw [hsig, ih hr]
      · rw [if_neg hc, if_neg hc]
        exact ih hr

/-- Up to stocks ordering, `calculate_signals` depends only on the
markets' normalisations. -/
theorem calculate_signals_norm_eq {ms1 ms2 : List Market}
    (h : ms1.map normMarket = ms2.map normMarket) (config : Config) (now : String) :
    normSet (calculate_signals ms1 config now)
      = normSet (calculate_signals ms2 config now) := by
  have hsort : ∀ t : Tier,
      (pySorted (tierList ms1 config t)).map normSignal
        = (pySorted (tierList ms2 config t)).map normSignal := by
    intro t
    unfold pySorted
    rw [List.map_insertionSort signalDescRel nsignalDescRel normSignal _
        (fun a _ b _ => Iff.rfl),
      List.map_insertionSort signalDescRel nsignalDescRel normSignal _
        (fun a _ b _ => Iff.rfl),
      tierList_norm_eq h config t]
  simp only [normSet, calculate_signals]
  rw [hsort .major, hsort .notable, tierList_norm_eq h config .stable]

/-- C4 (amended): the signal-set build is deterministic in its inputs up
to the enumeration order of each affected-tickers set.  Within one process
the enumeration is fixed, so repeated builds agree byte-for-byte; across
any two valid enumerations of CPython's `list(set(·))` (e.g. two processes
with different hash seeds) the outputs agree everywhere except the
ordering inside each `affected_stocks` list. -/
theorem C4_amended_build_deterministic_up_to_set_order
    (e1 e2 : List String → List String) (h1 : ValidSetEnum e1) (h2 : ValidSetEnum e2)
    (raw_markets : List Market) (config : Config) (now : String) :
    normSet (build e1 raw_markets config now)
      = normSet (build e2 raw_markets config now) := by
  unfold build
  exact calculate_signals_norm_eq
    (filter_relevant_norm_eq h1 h2 raw_markets config) config now

/-- A major-tier market matching the first watchlist category of `cfgC2`,
whose category has two affected tickers. -/
def marketC4 : Market :=
  { id := some "m1"
    question := some "Fed rate cut?"
    description := some ""
    outcomePrices := some (.arr [.num (35/100), .num (65/100)])
    oneDayPriceChange := some (7/100)
    oneWeekPriceChange := some (1/100)
    volume24hr := some 50000
    volumeNum := some 100000
    slug := some "s1" }

/-- The signal `marketC4` produces, parameterised by the affected-stocks
ordering. -/
def sigC4 (stocks : List String) : Signal :=
  { id := some "m1"
    question := some "Fed rate cut?"
    category := some "fed"
    affected_stocks := stocks
    current_prob := 35
    day_change := 7
    week_change := 1
    volume_24h := 50000
    volume_total := 100000
    slug := some "s1" }

/-- C4 counterexample: two valid models of `list(set(·))` — two hash-seed
choices — give byte-different builds on identical inputs and timestamp:
the affected-tickers list comes out `["JPM", "GS"]` under one enumeration
and `["GS", "JPM"]` under the other. -/
theorem C4_counterexample :
    ValidSetEnum (fun l => l.dedup) ∧
    ValidSetEnum (fun l => l.dedup.reverse) ∧
    build (fun l => l.dedup) [marketC4] cfgC2 "T"
      ≠ build (fun l => l.dedup.reverse) [marketC4] cfgC2 "T" := by
  refine ⟨validSetEnum_dedup,
    fun l => ⟨List.nodup_reverse.2 l.nodup_dedup, fun x => by simp⟩, ?_⟩
  have hc1 : categorize_market (fun l => l.dedup) "Fed rate cut?" "" cfgC2
      = (some "fed", ["JPM", "GS"]) := by decide
  have hc2 : categorize_market (fun l => l.dedup.reverse) "Fed rate cut?" "" cfgC2
      = (some "fed", ["GS", "JPM"]) := by decide
  have hv1 : cfgC2.min_volume_24h = 1000 := rfl
  have hv2 : cfgC2.major_change = 5 := rfl
  have hv3 : cfgC2.notable_change = 2 := rfl
  have hv4 : "fed".isEmpty = false := rfl
  have hb1 : build (fun l => l.dedup) [marketC4] cfgC2 "T"
      = { major := [sigC4 ["JPM", "GS"]], notable := [], stable := [],
          timestamp := "T" } := by
    norm_num [build, calculate_signals, tierList, filter_relevant_markets,
      truthyOptStr, classify_tier, rawDayChange, mkSignal, yesPrice, roundTo,
      pySorted, List.insertionSort, List.orderedInsert, hc1, marketC4, sigC4,
      hv1, hv2, hv3, hv4, List.filterMap_cons, List.filter_cons, round_eq,
      Int.floor_eq_iff]
    decide
  have hb2 : build (fun l => l.dedup.reverse) [marketC4] cfgC2 "T"
      = { major := [sigC4 ["GS", "JPM"]], notable := [], stable := [],
          timestamp := "T" } := by
    norm_num [build, calculate_signals, tierList, filter_relevant_markets,
      truthyOptStr, classify_tier, rawDayChange, mkSignal, yesPrice, roundTo,
      pySorted, List.insertionSort, List.orderedInsert, hc2, marketC4, sigC4,
      hv1, hv2, hv3, hv4, List.filterMap_cons, List.filter_cons, round_eq,
      Int.floor_eq_iff]
    decide
  rw [hb1, hb2]
  intro h
  have hstocks := congrArg
    (fun ss : SignalSet => ss.major.map (fun s => s.affected_stocks)) h
  exact absurd hstocks (by decide)

/-- Witness for the amended C4 theorem at two concrete enumerations. -/
theorem C4_amended_witness :
    ValidSetEnum (fun l => l.dedup) ∧
    ValidSetEnum (fun l => l.dedup.reverse) ∧
    normSet (build (fun l => l.dedup) [marketC4] cfgC2 "T")
      = normSet (build (fun l => l.dedup.reverse) [marketC4] cfgC2 "T") :=
  ⟨validSetEnum_dedup,
    fun l => ⟨List.nodup_reverse.2 l.nodup_dedup, fun x => by simp⟩,
    C4_amended_build_deterministic_up_to_set_order
      (fun l => l.dedup) (fun l => l.dedup.reverse) validSetEnum_dedup
      (fun l => ⟨List.nodup_reverse.2 l.nodup_dedup, fun x => by simp⟩)
      [marketC4] cfgC2 "T"⟩

end PolymarketSignals
